import Mathlib

/-!
# Verification of the `ctl` math module (src/math.rs)

Shallow embedding of the GCD engine and the `Fraction` arithmetic of
`src/math.rs`.  Machine integers `i32` are modelled as `Int`; Rust's
truncating `/` and `%` are `Int.tdiv` and `Int.tmod`.  Integer overflow is
out of scope (the design document declares it a non-goal).  A Rust division
by zero panics, so code that can divide by zero is modelled with `Option`
(`none` = divide-by-zero fault); code that performs no division is total.
-/

namespace Ctl

/-- `(Int.tmod a b).natAbs` is `a.natAbs % b.natAbs`; Rust's `%` magnitude. -/
theorem natAbs_tmod (a b : Int) :
    (Int.tmod a b).natAbs = a.natAbs % b.natAbs := by
  cases a <;> cases b <;>
    simp only [Int.tmod, Int.natAbs_neg, Int.natAbs_ofNat, Int.natAbs_negSucc,
      Nat.succ_eq_add_one] <;> rfl

/-- Magnitude of `Int.tmod a b` is below the magnitude of `b` when `b ≠ 0`. -/
theorem natAbs_tmod_lt (a : Int) {b : Int} (hb : b ≠ 0) :
    (Int.tmod a b).natAbs < b.natAbs := by
  rw [natAbs_tmod]
  exact Nat.mod_lt _ (Int.natAbs_pos.mpr hb)

/-- `gcd` from src/math.rs:
```rust
pub fn gcd(a: i32, b: i32) -> i32 {
    if b == 0 { return a; }
    gcd(b, a % b)
}
``` -/
def gcd (a b : Int) : Int :=
  if h : b = 0 then a
  else gcd b (Int.tmod a b)
termination_by b.natAbs
decreasing_by exact natAbs_tmod_lt a h

/-- Fuel-bounded variant of `gcd`, used to reason about termination of the
recursion itself: `none` means the recursion did not finish within the given
number of call steps. -/
def gcdFuel : Nat → Int → Int → Option Int
  | 0, _, _ => none
  | n + 1, a, b => if b = 0 then some a else gcdFuel n b (Int.tmod a b)

/-- When the fuel-bounded recursion finishes, it agrees with `gcd`. -/
theorem gcdFuel_eq_gcd : ∀ (n : Nat) (a b g : Int),
    gcdFuel n a b = some g → gcd a b = g := by
  intro n
  induction n with
  | zero => intro a b g h; simp [gcdFuel] at h
  | succ n ih =>
    intro a b g h
    rw [gcd]
    by_cases hb : b = 0
    · simp [gcdFuel, hb] at h
      simp [hb, h]
    · simp [gcdFuel, hb] at h
      simp [hb]
      exact ih b (Int.tmod a b) g h

/-- `gcd` returns a common divisor of its two arguments. -/
theorem gcd_dvd (a b : Int) : gcd a b ∣ a ∧ gcd a b ∣ b := by
  have key : ∀ (n : Nat) (b a : Int), b.natAbs ≤ n → gcd a b ∣ a ∧ gcd a b ∣ b := by
    intro n
    induction n with
    | zero =>
      intro b a hb
      have hb0 : b = 0 := Int.natAbs_eq_zero.mp (Nat.le_zero.mp hb)
      rw [gcd]
      simp [hb0]
    | succ n ih =>
      intro b a hb
      by_cases h : b = 0
      · rw [gcd]; simp [h]
      · rw [gcd]
        simp only [h, dite_false]
        have hlt : (Int.tmod a b).natAbs < b.natAbs := natAbs_tmod_lt a h
        obtain ⟨h1, h2⟩ := ih (Int.tmod a b) b (by omega)
        refine ⟨?_, h1⟩
        have hsum : gcd b (Int.tmod a b) ∣ b * Int.tdiv a b + Int.tmod a b :=
          dvd_add (Dvd.dvd.mul_right h1 _) h2
        rwa [Int.tdiv_add_tmod] at hsum
  exact key b.natAbs b a le_rfl

/-- The magnitude of `gcd a b` is the mathematical greatest common divisor of
the magnitudes of `a` and `b`. -/
theorem gcd_natAbs (a b : Int) : (gcd a b).natAbs = Nat.gcd a.natAbs b.natAbs := by
  have key : ∀ (n : Nat) (b a : Int), b.natAbs ≤ n →
      (gcd a b).natAbs = Nat.gcd a.natAbs b.natAbs := by
    intro n
    induction n with
    | zero =>
      intro b a hb
      have hb0 : b = 0 := Int.natAbs_eq_zero.mp (Nat.le_zero.mp hb)
      rw [gcd]
      simp [hb0]
    | succ n ih =>
      intro b a hb
      by_cases h : b = 0
      · rw [gcd]; simp [h]
      · rw [gcd]
        simp only [h, dite_false]
        have hlt : (Int.tmod a b).natAbs < b.natAbs := natAbs_tmod_lt a h
        rw [ih (Int.tmod a b) b (by omega), natAbs_tmod]
        rw [Nat.gcd_comm a.natAbs b.natAbs, Nat.gcd_rec b.natAbs a.natAbs,
          Nat.gcd_comm (a.natAbs % b.natAbs) b.natAbs]
  exact key b.natAbs b a le_rfl

/-- `gcd` vanishes exactly when both arguments vanish. -/
theorem gcd_eq_zero_iff (a b : Int) : gcd a b = 0 ↔ a = 0 ∧ b = 0 := by
  rw [← Int.natAbs_eq_zero, gcd_natAbs, Nat.gcd_eq_zero_iff,
    Int.natAbs_eq_zero, Int.natAbs_eq_zero]

/-- The loop of `extended_gcd` from src/math.rs, with a fuel bound on the
number of iterations.  Each iteration computes `q = a / b` and `r = a % b`
(Rust truncating division); in Rust `a / b` with `b == 0` panics, modelled
here as `none`.  `s` and `t` hold the two-element coefficient arrays.
```rust
loop {
    let q = a / b;
    let r = a % b;
    if r == 0 { return (b, s[1], t[1]); }
    let s3 = s[0] - q * s[1];
    let t3 = t[0] - q * t[1];
    s[0] = s[1]; s[1] = s3;
    t[0] = t[1]; t[1] = t3;
    a = b; b = r;
}
``` -/
def egcdLoop : Nat → Int → Int → Int × Int → Int × Int → Option (Int × Int × Int)
  | 0, _, _, _, _ => none
  | n + 1, a, b, s, t =>
    if b = 0 then none
    else
      let q := Int.tdiv a b
      let r := Int.tmod a b
      if r = 0 then some (b, s.2, t.2)
      else egcdLoop n b r (s.2, s.1 - q * s.2) (t.2, t.1 - q * t.2)

/-- Loop invariant of `extended_gcd`: if the current `a`, `b` are the given
integer combinations of the fixed pair `A`, `B`, then the returned `g` is the
combination of `A`, `B` by the returned coefficients. -/
theorem egcdLoop_bezout : ∀ (n : Nat) (a b s0 s1 t0 t1 A B g s t : Int),
    a = s0 * A + t0 * B → b = s1 * A + t1 * B →
    egcdLoop n a b (s0, s1) (t0, t1) = some (g, s, t) →
    g = s * A + t * B := by
  intro n
  induction n with
  | zero => intro a b s0 s1 t0 t1 A B g s t _ _ h; simp [egcdLoop] at h
  | succ n ih =>
    intro a b s0 s1 t0 t1 A B g s t ha hb h
    by_cases hb0 : b = 0
    · simp [egcdLoop, hb0] at h
    · simp only [egcdLoop, hb0, if_false] at h
      by_cases hr : Int.tmod a b = 0
      · simp only [hr, if_pos rfl, Option.some.injEq, Prod.mk.injEq] at h
        obtain ⟨rfl, rfl, rfl⟩ := h
        exact hb
      · simp only [hr, if_neg hr] at h
        have hr' : Int.tmod a b =
            (s0 - Int.tdiv a b * s1) * A + (t0 - Int.tdiv a b * t1) * B := by
          rw [Int.tmod_def, ha, hb]; ring
        exact ih b (Int.tmod a b) s1 (s0 - Int.tdiv a b * s1) t1
          (t0 - Int.tdiv a b * t1) A B g s t hb hr' h

/-- The loop of `extended_gcd` terminates with a value whenever its divisor is
nonzero and the fuel exceeds its magnitude. -/
theorem egcdLoop_isSome : ∀ (n : Nat) (a b : Int) (s t : Int × Int),
    b ≠ 0 → b.natAbs < n → (egcdLoop n a b s t).isSome = true := by
  intro n
  induction n with
  | zero => intro a b s t _ h; omega
  | succ n ih =>
    intro a b s t hb0 hn
    simp only [egcdLoop, hb0, if_false]
    by_cases hr : Int.tmod a b = 0
    · simp [hr]
    · simp only [hr, if_neg hr]
      have hlt : (Int.tmod a b).natAbs < b.natAbs := natAbs_tmod_lt a hb0
      exact ih b (Int.tmod a b) _ _ hr (by omega)

/-- `extended_gcd` from src/math.rs:
```rust
pub fn extended_gcd(mut a: i32, mut b: i32) -> (i32, i32, i32) {
    if b == 0 { return (a.abs(), 1, 0); }
    if a * a < b * b { (a, b) = (b, a); }
    let mut s = [1, 0];
    let mut t = [0, 1];
    loop { ... }
}
```
The loop's fuel `|b| + 1` (for the post-swap `b`) is enough whenever the
post-swap `b` is nonzero, since `|b|` strictly decreases each iteration;
`none` therefore only reports the division-by-zero panic reachable when
`a = 0` and `b ≠ 0` (the swap then makes the divisor zero). -/
def extended_gcd (a b : Int) : Option (Int × Int × Int) :=
  if b = 0 then some ((a.natAbs : Int), 1, 0)
  else
    let p := if a * a < b * b then (b, a) else (a, b)
    egcdLoop (p.2.natAbs + 1) p.1 p.2 (1, 0) (0, 1)

/-- `Fraction` from src/math.rs: numerator `q`, denominator `d`, both `i32`. -/
structure Fraction where
  q : Int
  d : Int
deriving DecidableEq

/-- `frac` from src/math.rs: bare construction, no validation. -/
def frac (a b : Int) : Fraction := ⟨a, b⟩

/-- `Fraction::reduce` from src/math.rs:
```rust
pub fn reduce(self) -> Fraction {
    let r = gcd(self.q, self.d);
    frac(self.q / r, self.d / r)
}
```
Rust `/` panics when `r == 0` (which happens exactly for `frac(0, 0)`),
modelled as `none`. -/
def Fraction.reduce (f : Fraction) : Option Fraction :=
  let r := gcd f.q f.d
  if r = 0 then none else some (frac (Int.tdiv f.q r) (Int.tdiv f.d r))

/-- `impl Neg for Fraction`: `frac(-self.q, self.d)`. -/
def Fraction.neg (f : Fraction) : Fraction := frac (-f.q) f.d

/-- `impl Mul for Fraction`: `frac(self.q * rhs.q, self.d * rhs.d)`. -/
def Fraction.mul (f1 f2 : Fraction) : Fraction := frac (f1.q * f2.q) (f1.d * f2.d)

/-- `impl Add for Fraction`:
```rust
let a = self * frac(rhs.d, rhs.d);
let b = rhs * frac(self.d, self.d);
frac(a.q + b.q, a.d)
``` -/
def Fraction.add (f1 f2 : Fraction) : Fraction :=
  let a := Fraction.mul f1 (frac f2.d f2.d)
  let b := Fraction.mul f2 (frac f1.d f1.d)
  frac (a.q + b.q) a.d

/-- `impl Sub for Fraction`: as `add` but `frac(a.q - b.q, a.d)`. -/
def Fraction.sub (f1 f2 : Fraction) : Fraction :=
  let a := Fraction.mul f1 (frac f2.d f2.d)
  let b := Fraction.mul f2 (frac f1.d f1.d)
  frac (a.q - b.q) a.d

/-- `impl Div for Fraction`: `frac(self.q * rhs.d, self.d * rhs.q)`. -/
def Fraction.div (f1 f2 : Fraction) : Fraction := frac (f1.q * f2.d) (f1.d * f2.q)

/-- `impl Add<i32> for Fraction`: `frac(self.q + rhs * self.d, self.d)`. -/
def Fraction.addInt (f : Fraction) (n : Int) : Fraction := frac (f.q + n * f.d) f.d

/-- `impl Sub<i32> for Fraction`: `self + -rhs`. -/
def Fraction.subInt (f : Fraction) (n : Int) : Fraction := Fraction.addInt f (-n)

/-- `impl Mul<i32> for Fraction`: `frac(self.q * rhs, self.d)`. -/
def Fraction.mulInt (f : Fraction) (n : Int) : Fraction := frac (f.q * n) f.d

/-- `impl Div<i32> for Fraction`: `frac(self.q, self.d * rhs)`. -/
def Fraction.divInt (f : Fraction) (n : Int) : Fraction := frac f.q (f.d * n)

/-- `impl Add<Fraction> for i32`: `rhs + self`. -/
def intAddFrac (n : Int) (f : Fraction) : Fraction := Fraction.addInt f n

/-- `impl Sub<Fraction> for i32`: `-self + rhs`. -/
def intSubFrac (n : Int) (f : Fraction) : Fraction := intAddFrac (-n) f

/-- `impl Mul<Fraction> for i32`: `rhs * self`. -/
def intMulFrac (n : Int) (f : Fraction) : Fraction := Fraction.mulInt f n

/-- `impl Div<Fraction> for i32`: `frac(rhs.d * self, rhs.q)`. -/
def intDivFrac (n : Int) (f : Fraction) : Fraction := frac (f.d * n) f.q

/-- `impl PartialEq for Fraction`: `self.q * other.d == self.d * other.q`. -/
def feq (f1 f2 : Fraction) : Bool := f1.q * f2.d == f1.d * f2.q

/-- One successful `reduce` step: away from `frac(0, 0)` it returns a value
equivalent to its input whose components are again not both zero. -/
theorem reduce_step_core (q d : Int) (h : ¬(q = 0 ∧ d = 0)) :
    ∃ x y, (frac q d).reduce = some (frac x y) ∧ x * d = y * q ∧
      ¬(x = 0 ∧ y = 0) := by
  have hg : gcd q d ≠ 0 := fun h0 => h ((gcd_eq_zero_iff _ _).mp h0)
  obtain ⟨x, hx⟩ := (gcd_dvd q d).1
  obtain ⟨y, hy⟩ := (gcd_dvd q d).2
  have key : ∀ g : Int, g ≠ 0 → q = g * x → d = g * y →
      Int.tdiv q g = x ∧ Int.tdiv d g = y := by
    intro g hg0 hq hd
    constructor
    · rw [hq]; exact Int.mul_tdiv_cancel_left x hg0
    · rw [hd]; exact Int.mul_tdiv_cancel_left y hg0
  obtain ⟨e1, e2⟩ := key (gcd q d) hg hx hy
  refine ⟨x, y, ?_, ?_, ?_⟩
  · show (if gcd q d = 0 then none
      else some (frac (Int.tdiv q (gcd q d)) (Int.tdiv d (gcd q d))))
      = some (frac x y)
    rw [if_neg hg, e1, e2]
  · have cross : ∀ g : Int, q = g * x → d = g * y → x * d = y * q := by
      intro g hq hd
      rw [hq, hd]; ring
    exact cross (gcd q d) hx hy
  · rintro ⟨hx0, hy0⟩
    exact h ⟨by rw [hx, hx0, mul_zero], by rw [hy, hy0, mul_zero]⟩

/-- C1 (counterexample): the claim that `a*s + b*t == g` holds for the
original, unswapped arguments fails at `(a, b) = (552, 713)` (the source's own
test input): `extended_gcd(552, 713) = (23, 7, -9)`, and
`552*7 + 713*(-9) = -2553 ≠ 23` (the identity instead holds for the swapped
order `713*7 + 552*(-9) = 23`). -/
theorem extended_gcd_not_original_bezout_at_552_713 :
    extended_gcd 552 713 = some (23, 7, -9) ∧
    ¬((552 : Int) * 7 + 713 * (-9) = 23) := by
  constructor
  · decide
  · decide

/-- C1 (amended): for `a`, `b` both nonzero, `extended_gcd(a, b)` returns
`(g, s, t)` with `a*s + b*t == g` holding for the arguments as seen after the
internal swap: for the original `a, b` when `a*a ≥ b*b`, and with `a` and `b`
exchanged when `a*a < b*b`. -/
theorem extended_gcd_bezout_post_swap (a b : Int) (ha : a ≠ 0) (hb : b ≠ 0) :
    ∃ g s t, extended_gcd a b = some (g, s, t) ∧
      (if a * a < b * b then b * s + a * t = g else a * s + b * t = g) := by
  by_cases hsw : a * a < b * b
  · have hterm := egcdLoop_isSome (a.natAbs + 1) b a (1, 0) (0, 1) ha (Nat.lt_succ_self _)
    obtain ⟨⟨g, s, t⟩, hsome⟩ := Option.isSome_iff_exists.mp hterm
    refine ⟨g, s, t, ?_, ?_⟩
    · simp only [extended_gcd, hb, if_false, hsw, if_true]
      exact hsome
    · rw [if_pos hsw]
      have hinv := egcdLoop_bezout (a.natAbs + 1) b a 1 0 0 1 b a g s t
        (by ring) (by ring) hsome
      linear_combination -hinv
  · have hterm := egcdLoop_isSome (b.natAbs + 1) a b (1, 0) (0, 1) hb (Nat.lt_succ_self _)
    obtain ⟨⟨g, s, t⟩, hsome⟩ := Option.isSome_iff_exists.mp hterm
    refine ⟨g, s, t, ?_, ?_⟩
    · simp only [extended_gcd, hb, if_false, hsw, if_false]
      exact hsome
    · rw [if_neg hsw]
      have hinv := egcdLoop_bezout (b.natAbs + 1) a b 1 0 0 1 a b g s t
        (by ring) (by ring) hsome
      linear_combination -hinv

/-- C1 (witness): the amended Bézout property at `(552, 713)`. -/
theorem extended_gcd_bezout_post_swap_witness :
    (552 : Int) ≠ 0 ∧ (713 : Int) ≠ 0 ∧
    (∃ g s t, extended_gcd 552 713 = some (g, s, t) ∧
      (if (552 : Int) * 552 < 713 * 713 then 713 * s + 552 * t = g
       else 552 * s + 713 * t = g)) :=
  ⟨by decide, by decide, extended_gcd_bezout_post_swap 552 713 (by decide) (by decide)⟩

/-- C2 (code bug): `impl Sub<Fraction> for i32` computes `-self + rhs`, i.e.
`f - n`, not `n - f`.  At the failing input `n = 3`, `f = frac(1, 2)` the
code returns `frac(-5, 2)`, which is not equivalent to the `frac(5, 2)` the
claim (and the meaning of subtraction) requires; the fraction-plus-integer
direction `frac(1, 2) + 3 = frac(7, 2)` from the same claim does hold. -/
theorem int_sub_frac_wrong_sign_at_3_half :
    intSubFrac 3 (frac 1 2) = frac (-5) 2 ∧
    feq (intSubFrac 3 (frac 1 2)) (frac 5 2) = false ∧
    Fraction.addInt (frac 1 2) 3 = frac 7 2 ∧
    feq (Fraction.addInt (frac 1 2) 3) (frac 7 2) = true := by
  refine ⟨by decide, by decide, by decide, by decide⟩

/-- C3 (counterexample): `add` does not reduce its result:
`frac(1,2) + frac(1,2)` returns the components `(4, 4)`, while reducing
`(1*2 + 1*2, 2*2) = (4, 4)` would give the components `(1, 1)`. -/
theorem add_not_reduced_at_half_half :
    Fraction.add (frac 1 2) (frac 1 2) = frac 4 4 ∧
    (frac 4 4).reduce = some (frac 1 1) ∧
    Fraction.add (frac 1 2) (frac 1 2) ≠ frac 1 1 := by
  refine ⟨by decide, ?_, by decide⟩
  have hg : gcd (4 : Int) 4 = 4 := gcdFuel_eq_gcd 5 4 4 4 (by decide)
  have hu : (frac 4 4).reduce =
      (if gcd (4 : Int) 4 = 0 then none
       else some (frac (Int.tdiv 4 (gcd (4 : Int) 4)) (Int.tdiv 4 (gcd (4 : Int) 4)))) := rfl
  rw [hu, hg]
  decide

/-- C3 (amended): every fraction-fraction operator returns the unreduced
cross-multiplication result (the lazy policy): `add` returns exactly
`frac(q1*d2 + q2*d1, d1*d2)` and `mul` returns exactly `frac(q1*q2, d1*d2)`,
with no call to `reduce`. -/
theorem add_mul_return_unreduced (f1 f2 : Fraction) :
    Fraction.add f1 f2 = frac (f1.q * f2.d + f2.q * f1.d) (f1.d * f2.d) ∧
    Fraction.mul f1 f2 = frac (f1.q * f2.q) (f1.d * f2.d) :=
  ⟨rfl, rfl⟩

/-- C4 (counterexample): with a zero-denominator operand the operators do not
fault; they silently return a value: `frac(1,0) + frac(1,2)` returns
`frac(2, 0)` and `frac(1,2) / frac(0,3)` returns `frac(3, 0)`. -/
theorem operators_silent_on_zero_denominator :
    Fraction.add (frac 1 0) (frac 1 2) = frac 2 0 ∧
    Fraction.div (frac 1 2) (frac 0 3) = frac 3 0 := by
  refine ⟨by decide, by decide⟩

/-- C4 (amended): the fraction-fraction operators contain no integer division,
so an operand with a zero denominator (or division by a fraction with zero
numerator) cannot fault; the operators silently return a fraction value.  The
result's denominator is zero exactly when `f1.d = 0` or `f2.d = 0` for `add`,
`sub` and `mul`, and exactly when `f1.d = 0` or `f2.q = 0` for `div` (for
`div` a zero denominator of the right operand lands in the result's
numerator instead: `frac(1,2) / frac(3,0) = frac(0,6)`). -/
theorem operator_denominator_zero_iff (f1 f2 : Fraction) :
    ((Fraction.add f1 f2).d = 0 ↔ f1.d = 0 ∨ f2.d = 0) ∧
    ((Fraction.sub f1 f2).d = 0 ↔ f1.d = 0 ∨ f2.d = 0) ∧
    ((Fraction.mul f1 f2).d = 0 ↔ f1.d = 0 ∨ f2.d = 0) ∧
    ((Fraction.div f1 f2).d = 0 ↔ f1.d = 0 ∨ f2.q = 0) := by
  refine ⟨?_, ?_, ?_, ?_⟩ <;>
    simp [Fraction.add, Fraction.sub, Fraction.mul, Fraction.div, frac, mul_eq_zero]

/-- C5 (counterexample): the equality comparison is not transitive over all
fractions: `frac(1,0) == frac(0,0)` and `frac(0,0) == frac(0,1)` but
`frac(1,0) ≠ frac(0,1)`. -/
theorem feq_not_transitive_through_zero_zero :
    feq (frac 1 0) (frac 0 0) = true ∧
    feq (frac 0 0) (frac 0 1) = true ∧
    feq (frac 1 0) (frac 0 1) = false := by
  refine ⟨by decide, by decide, by decide⟩

/-- C5 (amended): the comparison `q1*d2 == d1*q2` is reflexive and symmetric
over all fractions and scale-invariant (`frac(q,d) == frac(q*k, d*k)` for
nonzero `k`); it is transitive provided the middle fraction is not
`frac(0, 0)` (numerator and denominator not both zero). -/
theorem feq_equivalence_properties (f1 f2 f3 : Fraction)
    (hmid : ¬(f2.q = 0 ∧ f2.d = 0))
    (h12 : feq f1 f2 = true) (h23 : feq f2 f3 = true)
    (k : Int) (hk : k ≠ 0) :
    feq f1 f1 = true ∧ feq f2 f1 = true ∧ feq f1 f3 = true ∧
    ∀ q d : Int, feq (frac q d) (frac (q * k) (d * k)) = true := by
  simp only [feq, frac, beq_iff_eq] at h12 h23 ⊢
  refine ⟨mul_comm f1.q f1.d, by linear_combination -h12, ?_, fun q d => by ring⟩
  by_cases hd2 : f2.d = 0
  · have hq2 : f2.q ≠ 0 := fun h0 => hmid ⟨h0, hd2⟩
    rw [hd2] at h12 h23
    have hd1 : f1.d = 0 := by
      rw [mul_zero] at h12
      rcases mul_eq_zero.mp h12.symm with h | h
      · exact h
      · exact absurd h hq2
    have hd3 : f3.d = 0 := by
      rw [zero_mul] at h23
      rcases mul_eq_zero.mp h23 with h | h
      · exact absurd h hq2
      · exact h
    rw [hd1, hd3]; ring
  · apply mul_left_cancel₀ hd2
    calc f2.d * (f1.q * f3.d) = (f1.q * f2.d) * f3.d := by ring
      _ = (f1.d * f2.q) * f3.d := by rw [h12]
      _ = f1.d * (f2.q * f3.d) := by ring
      _ = f1.d * (f2.d * f3.q) := by rw [h23]
      _ = f2.d * (f1.d * f3.q) := by ring

/-- C5 (witness): the amended equivalence properties at
`f1 = frac(2,4)`, `f2 = frac(1,2)`, `f3 = frac(3,6)`, `k = 5`. -/
theorem feq_equivalence_properties_witness :
    ¬((frac 1 2).q = 0 ∧ (frac 1 2).d = 0) ∧
    feq (frac 2 4) (frac 1 2) = true ∧ feq (frac 1 2) (frac 3 6) = true ∧
    (5 : Int) ≠ 0 ∧
    (feq (frac 2 4) (frac 2 4) = true ∧ feq (frac 1 2) (frac 2 4) = true ∧
     feq (frac 2 4) (frac 3 6) = true ∧
     ∀ q d : Int, feq (frac q d) (frac (q * 5) (d * 5)) = true) :=
  ⟨by decide, by decide, by decide, by decide,
    feq_equivalence_properties (frac 2 4) (frac 1 2) (frac 3 6)
      (by decide) (by decide) (by decide) 5 (by decide)⟩

/-- C6: for `a`, `b` both nonzero, `gcd(a, b)` divides both exactly
(`a % g == 0` and `b % g == 0` with Rust's truncating `%`) and its magnitude
is the true greatest common divisor. -/
theorem gcd_divides_both_and_natAbs (a b : Int) (ha : a ≠ 0) (hb : b ≠ 0) :
    Int.tmod a (gcd a b) = 0 ∧ Int.tmod b (gcd a b) = 0 ∧
    (gcd a b).natAbs = Int.gcd a b := by
  obtain ⟨h1, h2⟩ := gcd_dvd a b
  refine ⟨Int.tmod_eq_zero_of_dvd h1, Int.tmod_eq_zero_of_dvd h2, ?_⟩
  rw [gcd_natAbs]
  rfl

/-- C6 (witness): the divisibility property at `(713, 552)`. -/
theorem gcd_divides_both_and_natAbs_witness :
    (713 : Int) ≠ 0 ∧ (552 : Int) ≠ 0 ∧
    (Int.tmod 713 (gcd 713 552) = 0 ∧ Int.tmod 552 (gcd 713 552) = 0 ∧
      (gcd 713 552).natAbs = Int.gcd 713 552) :=
  ⟨by decide, by decide, gcd_divides_both_and_natAbs 713 552 (by decide) (by decide)⟩

/-- C7 (counterexample): `gcd(0, 0)` does not loop or divide by zero; the
`b == 0` base case catches it on the very first call (one unit of fuel) and
returns the value `0`. -/
theorem gcd_zero_zero_terminates_immediately :
    gcdFuel 1 0 0 = some 0 ∧ gcd 0 0 = 0 := by
  constructor
  · decide
  · rw [gcd]; simp

/-- C7 (amended): calling `gcd` with both arguments zero terminates normally
and returns `0` via the `b == 0` base case: any positive amount of fuel
suffices, and no division is ever attempted. -/
theorem gcd_zero_zero_eq_zero :
    gcd 0 0 = 0 ∧ ∀ n : Nat, gcdFuel (n + 1) 0 0 = some 0 := by
  constructor
  · rw [gcd]; simp
  · intro n; simp [gcdFuel]

/-- C8: reduction is idempotent under the fraction equality comparison: for a
fraction whose components are not both zero, `reduce` succeeds, reducing again
succeeds, and the twice-reduced value compares equal to the once-reduced
value. -/
theorem reduce_idempotent_feq (f : Fraction) (h : ¬(f.q = 0 ∧ f.d = 0)) :
    ∃ f1 f2, f.reduce = some f1 ∧ f1.reduce = some f2 ∧ feq f2 f1 = true := by
  obtain ⟨q, d⟩ := f
  obtain ⟨x, y, h1, hfe1, hnz1⟩ := reduce_step_core q d h
  obtain ⟨x2, y2, h2, hfe2, _⟩ := reduce_step_core x y hnz1
  refine ⟨frac x y, frac x2 y2, h1, h2, ?_⟩
  simp only [feq, frac, beq_iff_eq]
  exact hfe2

/-- C8 (witness): idempotence at `frac(2, 4)`. -/
theorem reduce_idempotent_feq_witness :
    ¬((frac 2 4).q = 0 ∧ (frac 2 4).d = 0) ∧
    (∃ f1 f2, (frac 2 4).reduce = some f1 ∧ f1.reduce = some f2 ∧
      feq f2 f1 = true) :=
  ⟨by decide, reduce_idempotent_feq (frac 2 4) (by decide)⟩

/-- C9: `frac(0, 0)` compares equal to every fraction, and any two fractions
with zero denominators compare equal regardless of numerators, because the
comparison `q1*d2 == d1*q2` degenerates to `0 == 0`. -/
theorem feq_zero_zero_eq_everything :
    (∀ f : Fraction, feq (frac 0 0) f = true) ∧
    (∀ q1 q2 : Int, feq (frac q1 0) (frac q2 0) = true) := by
  constructor
  · intro f; simp [feq, frac]
  · intro q1 q2; simp [feq, frac]

/-- C10: `gcd(numerator, denominator)` is zero exactly when both components
are zero, and `reduce`'s division by zero (modelled by `none`) is reachable
exactly for `frac(0, 0)`; every other fraction reduces without fault. -/
theorem reduce_div_by_zero_iff_zero_zero (f : Fraction) :
    (gcd f.q f.d = 0 ↔ f.q = 0 ∧ f.d = 0) ∧
    (f.reduce = none ↔ f.q = 0 ∧ f.d = 0) := by
  refine ⟨gcd_eq_zero_iff f.q f.d, ?_⟩
  show (if gcd f.q f.d = 0 then none
    else some (frac (Int.tdiv f.q (gcd f.q f.d)) (Int.tdiv f.d (gcd f.q f.d))))
    = none ↔ f.q = 0 ∧ f.d = 0
  by_cases hg : gcd f.q f.d = 0
  · rw [if_pos hg]
    simp [(gcd_eq_zero_iff f.q f.d).mp hg]
  · simp only [hg, if_false]
    constructor
    · intro hcontra; exact absurd hcontra (Option.some_ne_none _)
    · intro hz; exact absurd ((gcd_eq_zero_iff f.q f.d).mpr hz) hg

end Ctl



